import Mathlib

/-!
Verification of `backend/storage.py` from the llm-council repository.

The module persists chat conversations behind two backends chosen by the
presence of the `DATABASE_URL` environment value: a flat-file JSON store
(one `<data_dir>/<id>.json` document per conversation) and a relational
store (one row per conversation, `messages` held as a structured JSON
column).

Shallow embedding conventions:
* JSON documents (as produced by `json.load` / returned by the `jsonb`
  column) are modelled by the inductive `JValue`.
* The observable world is a `State`: the process-wide configuration
  (`DATABASE_URL`, `DATA_DIR`), the rows of the `conversations` table and
  the files on disk (an association list keyed by path).
* Each Python function becomes a pure function; functions that can raise
  return `Except StorageError _`.  `datetime.utcnow().isoformat()` is an
  explicit `now : String` argument.
* Python `dict` field access becomes `JValue.lookup`; assignment becomes
  `JValue.setField`.  Failures Python would raise (KeyError on a missing
  key, adaptation/type errors on ill-typed fields) are collapsed into
  `StorageError.typeError`; no claim distinguishes them.
-/

namespace LlmCouncil

/-- JSON-like values: the payloads `json.load` produces and the shape of the
Python conversation dicts built by `storage.py`. -/
inductive JValue : Type
  | null
  | bool (b : Bool)
  | num (n : Int)
  | str (s : String)
  | arr (elems : List JValue)
  | obj (fields : List (String × JValue))

/-- First-match lookup in an association list (keys are unique in every list
the module builds, so this is Python dict lookup). -/
def lookupKey : List (String × JValue) → String → Option JValue
  | [], _ => none
  | (k', v') :: rest, k => if k' = k then some v' else lookupKey rest k

/-- Field lookup on a JSON object (Python `d[k]` / `d.get(k)` on a dict);
`none` on a missing key or a non-object. -/
def JValue.lookup (v : JValue) (key : String) : Option JValue :=
  match v with
  | .obj fields => lookupKey fields key
  | _ => none

/-- Replace the value at a key in an association list, appending when the key
is absent (Python dict assignment). -/
def setKey : List (String × JValue) → String → JValue → List (String × JValue)
  | [], k, v => [(k, v)]
  | (k', v') :: rest, k, v =>
      if k' = k then (k, v) :: rest else (k', v') :: setKey rest k v

/-- Python `d[k] = v` on a dict; non-objects are returned unchanged (callers
pattern-match on objects first). -/
def JValue.setField (o : JValue) (k : String) (v : JValue) : JValue :=
  match o with
  | .obj fields => .obj (setKey fields k v)
  | other => other

/-- Errors the module can raise: the uniqueness-constraint failure of the
relational `INSERT`, the explicit `ValueError("... not found")` of the three
helpers, and Python-level key/type failures. -/
inductive StorageError : Type
  | uniqueViolation (id : String)
  | notFound (id : String)
  | typeError
deriving DecidableEq

/-- One row of the `conversations` table
(`id TEXT PRIMARY KEY, created_at TEXT, title TEXT, messages JSONB`). -/
structure DbRow where
  id : String
  created_at : String
  title : String
  messages : JValue

/-- The observable state: process configuration, the relational table's rows
(in insertion order) and the files on disk (path ↦ parsed JSON document, in
directory-listing order). -/
structure State where
  databaseUrl : Option String
  dataDir : String
  db : List DbRow
  files : List (String × JValue)

/-- `using_database`: `bool(DATABASE_URL)` — true exactly when the
environment value is present and non-empty. -/
def using_database (s : State) : Bool :=
  match s.databaseUrl with
  | none => false
  | some u => u != ""

/-- Python `str.startswith`, computed on the underlying character list. -/
def strStartsWith (s pre : String) : Bool := pre.data.isPrefixOf s.data

/-- Python `str.endswith`, computed on the underlying character list. -/
def strEndsWith (s post : String) : Bool := post.data.isSuffixOf s.data

/-- Python string comparison: code-point lexicographic order. -/
def charListLe : List Char → List Char → Bool
  | [], _ => true
  | _ :: _, [] => false
  | a :: as, b :: bs =>
      if a.toNat < b.toNat then true
      else if b.toNat < a.toNat then false
      else charListLe as bs

/-- `a <= b` on Python strings. -/
def strLe (a b : String) : Bool := charListLe a.data b.data

/-- POSIX `os.path.join` for two components: the second component wins when
absolute, otherwise a single separator is inserted. -/
def osPathJoin (a b : String) : String :=
  if strStartsWith b "/" then b
  else if a = "" then b
  else if strEndsWith a "/" then a ++ b
  else a ++ "/" ++ b

/-- `get_conversation_path`: `os.path.join(DATA_DIR, f"{id}.json")`. -/
def get_conversation_path (dataDir id : String) : String :=
  osPathJoin dataDir (id ++ ".json")

/-- Write a file: replace the document at the path when present, create the
file otherwise. -/
def writeFile : List (String × JValue) → String → JValue → List (String × JValue)
  | [], p, v => [(p, v)]
  | (p', v') :: rest, p, v =>
      if p' = p then (p, v) :: rest else (p', v') :: writeFile rest p v

/-- Read a file (`os.path.exists` + `json.load`): the parsed document, or
`none` when the file does not exist. -/
def readFile (files : List (String × JValue)) (p : String) : Option JValue :=
  lookupKey files p

/-- The dict literal built by `create_conversation`. -/
def newConversation (now id : String) : JValue :=
  .obj [("id", .str id), ("created_at", .str now),
        ("title", .str "New Conversation"), ("messages", .arr [])]

/-- `create_conversation`: build the new record and persist it — `INSERT`
(failing on a duplicate primary key) under the relational backend, file write
(silently overwriting) under the file backend. -/
def create_conversation (s : State) (now id : String) :
    Except StorageError (JValue × State) :=
  let conversation := newConversation now id
  if using_database s then
    if (s.db.find? (fun r => r.id == id)).isSome then
      .error (.uniqueViolation id)
    else
      .ok (conversation,
           { s with db := s.db ++ [⟨id, now, "New Conversation", .arr []⟩] })
  else
    let path := get_conversation_path s.dataDir id
    .ok (conversation, { s with files := writeFile s.files path conversation })

/-- The dict `get_conversation` builds from a relational row. -/
def rowToConversation (r : DbRow) : JValue :=
  .obj [("id", .str r.id), ("created_at", .str r.created_at),
        ("title", .str r.title), ("messages", r.messages)]

/-- `get_conversation`: `SELECT ... WHERE id = %s` / read the file at the
conversation's path; `none` (Python `None`) when no record exists. -/
def get_conversation (s : State) (id : String) : Option JValue :=
  if using_database s then
    match s.db.find? (fun r => r.id == id) with
    | none => none
    | some r => some (rowToConversation r)
  else
    readFile s.files (get_conversation_path s.dataDir id)

/-- `save_conversation`: `UPDATE conversations SET title, messages WHERE id`
(a no-op when no row matches) under the relational backend; under the file
backend the whole dict is dumped to the path derived from its own `id`
field. -/
def save_conversation (s : State) (conversation : JValue) :
    Except StorageError State :=
  if using_database s then
    match conversation.lookup "title", conversation.lookup "messages",
          conversation.lookup "id" with
    | some (.str t), some ms, some (.str i) =>
        .ok { s with db := s.db.map (fun r =>
                if r.id == i then { r with title := t, messages := ms } else r) }
    | _, _, _ => .error .typeError
  else
    match conversation.lookup "id" with
    | some (.str i) =>
        .ok { s with files :=
                writeFile s.files (get_conversation_path s.dataDir i) conversation }
    | _ => .error .typeError

/-- The listing projection: id, created_at, title and a message count
computed from the stored messages. -/
structure Summary where
  id : String
  created_at : String
  title : String
  message_count : Nat
deriving DecidableEq

/-- PostgreSQL `jsonb_array_length`: defined on JSON arrays only. -/
def jsonb_array_length : JValue → Option Nat
  | .arr xs => some xs.length
  | _ => none

/-- The summary the relational branch of `list_conversations` computes for
one row. -/
def rowSummary (r : DbRow) : Except StorageError Summary :=
  match jsonb_array_length r.messages with
  | some n => .ok ⟨r.id, r.created_at, r.title, n⟩
  | none => .error .typeError

/-- The summary the file branch of `list_conversations` computes from one
parsed document: `data["id"]`, `data["created_at"]`,
`data.get("title", "New Conversation")`, `len(data["messages"])`. -/
def fileSummary (data : JValue) : Except StorageError Summary :=
  match data.lookup "id", data.lookup "created_at",
        (data.lookup "title").getD (.str "New Conversation"),
        data.lookup "messages" with
  | some (.str i), some (.str c), .str t, some (.arr ms) =>
      .ok ⟨i, c, t, ms.length⟩
  | _, _, _, _ => .error .typeError

/-- A directory entry of `os.listdir(DATA_DIR)`: a path directly inside the
data directory (no further separator). -/
def inDataDir (dataDir p : String) : Bool :=
  strStartsWith p (dataDir ++ "/") &&
    !((p.data.drop (dataDir.data.length + 1)).contains '/')

/-- Most-recent-first comparison used by both backends
(`ORDER BY created_at DESC` / `sort(key=created_at, reverse=True)`). -/
def summaryDesc (a b : Summary) : Bool := strLe b.created_at a.created_at

/-- Insert into a sorted list, before the first element the new one compares
`le` to; keeps earlier-listed elements first on ties (stable). -/
def insertBy (le : α → α → Bool) (x : α) : List α → List α
  | [] => [x]
  | y :: ys => if le x y then x :: y :: ys else y :: insertBy le x ys

/-- Stable insertion sort (the sort both backends apply to the summaries). -/
def sortBy (le : α → α → Bool) : List α → List α
  | [] => []
  | x :: xs => insertBy le x (sortBy le xs)

/-- Accumulate the per-record summaries in storage order, propagating the
first failure (the Python loop raises out of `list_conversations`). -/
def mapExcept (f : α → Except StorageError β) : List α → Except StorageError (List β)
  | [] => .ok []
  | x :: xs =>
    match f x with
    | .error e => .error e
    | .ok y =>
      match mapExcept f xs with
      | .error e => .error e
      | .ok ys => .ok (y :: ys)

/-- `list_conversations`: one summary per stored conversation, ordered by
`created_at`, most recent first.  The relational branch reads every row; the
file branch parses every `.json` file in the data directory. -/
def list_conversations (s : State) : Except StorageError (List Summary) :=
  if using_database s then
    match mapExcept rowSummary s.db with
    | .error e => .error e
    | .ok sums => .ok (sortBy summaryDesc sums)
  else
    match mapExcept (fun e => fileSummary e.2)
        (s.files.filter (fun e => inDataDir s.dataDir e.1 && strEndsWith e.1 ".json")) with
    | .error e => .error e
    | .ok sums => .ok (sortBy summaryDesc sums)

/-- The dict appended by `add_user_message`. -/
def mkUserMessage (content : String) : JValue :=
  .obj [("role", .str "user"), ("content", .str content)]

/-- `add_user_message`: `get` → raise NotFound when absent → append one user
message → `save`. -/
def add_user_message (s : State) (id content : String) :
    Except StorageError State :=
  match get_conversation s id with
  | none => .error (.notFound id)
  | some conversation =>
    match conversation.lookup "messages" with
    | some (.arr ms) =>
        save_conversation s
          (conversation.setField "messages" (.arr (ms ++ [mkUserMessage content])))
    | _ => .error .typeError

/-- The dict appended by `add_assistant_message`: the three stage payloads
are stored verbatim, uninterpreted. -/
def mkAssistantMessage (stage1 stage2 : List JValue) (stage3 : JValue) : JValue :=
  .obj [("role", .str "assistant"), ("stage1", .arr stage1),
        ("stage2", .arr stage2), ("stage3", stage3)]

/-- `add_assistant_message`: `get` → raise NotFound when absent → append one
assistant message carrying stage1/stage2/stage3 → `save`. -/
def add_assistant_message (s : State) (id : String)
    (stage1 stage2 : List JValue) (stage3 : JValue) :
    Except StorageError State :=
  match get_conversation s id with
  | none => .error (.notFound id)
  | some conversation =>
    match conversation.lookup "messages" with
    | some (.arr ms) =>
        save_conversation s
          (conversation.setField "messages"
            (.arr (ms ++ [mkAssistantMessage stage1 stage2 stage3])))
    | _ => .error .typeError

/-- `update_conversation_title`: `get` → raise NotFound when absent → set the
title field → `save`. -/
def update_conversation_title (s : State) (id title : String) :
    Except StorageError State :=
  match get_conversation s id with
  | none => .error (.notFound id)
  | some conversation =>
    match conversation with
    | .obj _ => save_conversation s (conversation.setField "title" (.str title))
    | _ => .error .typeError

/-- A record exists for an id: a matching row under the relational backend, a
file at the derived path under the file backend. -/
def record_exists (s : State) (id : String) : Bool :=
  if using_database s then (s.db.find? (fun r => r.id == id)).isSome
  else (readFile s.files (get_conversation_path s.dataDir id)).isSome

/-- Running a fallible operation: an error leaves the caller's state
current (the Python exception propagates before any write). -/
def applyExcept (s : State) : Except StorageError State → State
  | .ok s' => s'
  | .error _ => s

/-! ### Helper lemmas about the file map, objects and row updates -/

theorem readFile_writeFile_self (fs : List (String × JValue)) (p : String) (v : JValue) :
    readFile (writeFile fs p v) p = some v := by
  induction fs with
  | nil => simp [writeFile, readFile, lookupKey]
  | cons e rest ih =>
    obtain ⟨p', v'⟩ := e
    by_cases h : p' = p
    · simp [writeFile, readFile, h, lookupKey]
    · simpa [writeFile, readFile, h, lookupKey] using ih

theorem readFile_writeFile_ne (fs : List (String × JValue)) (p q : String) (v : JValue)
    (h : p ≠ q) : readFile (writeFile fs p v) q = readFile fs q := by
  induction fs with
  | nil => simp [writeFile, readFile, lookupKey, h]
  | cons e rest ih =>
    obtain ⟨p', v'⟩ := e
    by_cases hp : p' = p
    · subst hp
      simp [writeFile, readFile, lookupKey, h]
    · simp only [readFile] at ih
      simp [writeFile, readFile, lookupKey, hp, ih]

theorem writeFile_of_lookup (fs : List (String × JValue)) (p : String) (v : JValue)
    (h : lookupKey fs p = some v) : writeFile fs p v = fs := by
  induction fs with
  | nil => simp [lookupKey] at h
  | cons e rest ih =>
    obtain ⟨p', v'⟩ := e
    by_cases hp : p' = p
    · subst hp
      simp [lookupKey] at h
      simp [writeFile, h]
    · simp [lookupKey, hp] at h
      simp [writeFile, hp, ih h]

theorem lookup_setKey_self (l : List (String × JValue)) (k : String) (v : JValue) :
    lookupKey (setKey l k v) k = some v := by
  induction l with
  | nil => simp [setKey, lookupKey]
  | cons e rest ih =>
    obtain ⟨k', v'⟩ := e
    by_cases h : k' = k
    · simp [setKey, h, lookupKey]
    · simpa [setKey, h, lookupKey] using ih

theorem lookup_setKey_ne (l : List (String × JValue)) (k k' : String) (v : JValue)
    (h : k' ≠ k) : lookupKey (setKey l k v) k' = lookupKey l k' := by
  induction l with
  | nil => simp [setKey, lookupKey, Ne.symm h]
  | cons e rest ih =>
    obtain ⟨k₀, v₀⟩ := e
    by_cases hk : k₀ = k
    · subst hk
      simp [setKey, lookupKey, Ne.symm h]
    · simp [setKey, lookupKey, hk, ih]

theorem lookup_setField_self (o : JValue) (fields : List (String × JValue))
    (ho : o = .obj fields) (k : String) (v : JValue) :
    (o.setField k v).lookup k = some v := by
  subst ho
  simp [JValue.setField, JValue.lookup, lookup_setKey_self]

theorem lookup_setField_ne (o : JValue) (fields : List (String × JValue))
    (ho : o = .obj fields) (k k' : String) (v : JValue) (h : k' ≠ k) :
    (o.setField k v).lookup k' = o.lookup k' := by
  subst ho
  simp [JValue.setField, JValue.lookup, lookup_setKey_ne _ _ _ _ h]

theorem find?_map_update (rows : List DbRow) (i : String) (r : DbRow) (f : DbRow → DbRow)
    (hfind : rows.find? (fun x => x.id == i) = some r)
    (hf : ∀ x, (f x).id = x.id) :
    (rows.map (fun x => if x.id == i then f x else x)).find? (fun x => x.id == i)
      = some (f r) := by
  induction rows with
  | nil => simp at hfind
  | cons a rest ih =>
    by_cases h : a.id = i
    · rw [List.find?_cons_of_pos _ (by simp [h])] at hfind
      obtain rfl : a = r := by injection hfind
      rw [List.map_cons, if_pos (by simp [h]),
          List.find?_cons_of_pos _ (by simp [hf, h])]
    · rw [List.find?_cons_of_neg _ (by simp [h])] at hfind
      rw [List.map_cons, if_neg (by simp [h]),
          List.find?_cons_of_neg _ (by simp [h])]
      exact ih hfind

theorem map_update_eq_self (rows : List DbRow) (i : String) (r : DbRow)
    (f : DbRow → DbRow)
    (hfind : rows.find? (fun x => x.id == i) = some r)
    (hnd : (rows.map DbRow.id).Nodup)
    (hf : f r = r) :
    rows.map (fun x => if x.id == i then f x else x) = rows := by
  induction rows with
  | nil => simp
  | cons a rest ih =>
    by_cases h : a.id = i
    · rw [List.find?_cons_of_pos _ (by simp [h])] at hfind
      obtain rfl : a = r := by injection hfind
      have hnotin : ∀ x ∈ rest, ¬ x.id = i := by
        intro x hx hxid
        have hmem : a.id ∈ rest.map DbRow.id := by
          rw [h, ← hxid]
          exact List.mem_map_of_mem DbRow.id hx
        exact (List.nodup_cons.mp hnd).1 hmem
      have hrest : rest.map (fun x => if x.id == i then f x else x) = rest := by
        rw [show rest = rest.map id from (List.map_id rest).symm]
        rw [List.map_map]
        apply List.map_congr_left
        intro x hx
        simp [hnotin x (by simpa using hx)]
      rw [List.map_cons, if_pos (by simp [h]), hf, hrest]
    · rw [List.find?_cons_of_neg _ (by simp [h])] at hfind
      have hnd' : (rest.map DbRow.id).Nodup := (List.nodup_cons.mp hnd).2
      rw [List.map_cons, if_neg (by simp [h]), ih hfind hnd']

theorem using_database_set_files (s : State) (fs : List (String × JValue)) :
    using_database { s with files := fs } = using_database s := rfl

theorem using_database_set_db (s : State) (rows : List DbRow) :
    using_database { s with db := rows } = using_database s := rfl

/-! ### Claim theorems -/

/-- A sample file-backend state (no `DATABASE_URL`, empty data directory). -/
def emptyFileState : State := ⟨none, "/data", [], []⟩

/-- A sample relational-backend state (`DATABASE_URL` set, empty table). -/
def emptyDbState : State := ⟨some "postgres://db", "/data", [], []⟩

/-- C1: for an id with no existing record, `get_conversation` returns the
explicit absent value (`None`) without raising, while `add_user_message`,
`add_assistant_message` and `update_conversation_title` each raise the
NotFound condition and perform no write: the error propagates before any
save, so the caller's state is unchanged. -/
theorem get_absent_and_helpers_raise_on_missing_id
    (s : State) (id content title : String)
    (stage1 stage2 : List JValue) (stage3 : JValue)
    (h : record_exists s id = false) :
    get_conversation s id = none ∧
    add_user_message s id content = .error (.notFound id) ∧
    applyExcept s (add_user_message s id content) = s ∧
    add_assistant_message s id stage1 stage2 stage3 = .error (.notFound id) ∧
    applyExcept s (add_assistant_message s id stage1 stage2 stage3) = s ∧
    update_conversation_title s id title = .error (.notFound id) ∧
    applyExcept s (update_conversation_title s id title) = s := by
  have hget : get_conversation s id = none := by
    unfold record_exists at h
    unfold get_conversation
    cases hdb : using_database s with
    | true =>
      rw [if_pos hdb] at h
      rw [if_pos rfl]
      cases hfind : s.db.find? (fun r => r.id == id) with
      | none => rfl
      | some r => rw [hfind] at h; simp at h
    | false =>
      rw [if_neg (by simp [hdb])] at h
      rw [if_neg (by simp)]
      cases hread : readFile s.files (get_conversation_path s.dataDir id) with
      | none => rfl
      | some v => rw [hread] at h; simp at h
  refine ⟨hget, ?_, ?_, ?_, ?_, ?_, ?_⟩ <;>
    simp [add_user_message, add_assistant_message, update_conversation_title,
          applyExcept, hget]

theorem get_absent_and_helpers_raise_on_missing_id_witness :
    get_conversation emptyFileState "c1" = none :=
  (get_absent_and_helpers_raise_on_missing_id emptyFileState "c1" "hello" "T"
    [] [] .null rfl).1

/-- C2: for a non-empty id, a successful `create_conversation` returns the
record with title "New Conversation", empty messages and the current
timestamp as `created_at`, and an immediate `get_conversation` returns that
same record, the `created_at` string having round-tripped unchanged through
the backend's storage format. -/
theorem create_then_get_roundtrip (s : State) (now id : String) (hid : id ≠ "")
    (conv : JValue) (s' : State)
    (h : create_conversation s now id = .ok (conv, s')) :
    conv = newConversation now id ∧
    conv.lookup "title" = some (.str "New Conversation") ∧
    conv.lookup "messages" = some (.arr []) ∧
    conv.lookup "created_at" = some (.str now) ∧
    conv.lookup "id" = some (.str id) ∧
    get_conversation s' id = some conv := by
  have hmain : conv = newConversation now id ∧ get_conversation s' id = some conv := by
    unfold create_conversation at h
    cases hdb : using_database s with
    | true =>
      rw [if_pos hdb] at h
      cases hfind : s.db.find? (fun r => r.id == id) with
      | some r => rw [hfind] at h; simp at h
      | none =>
        rw [hfind] at h
        simp only [Option.isSome_none, Bool.false_eq_true, if_false,
          Except.ok.injEq, Prod.mk.injEq] at h
        obtain ⟨rfl, rfl⟩ := h
        refine ⟨rfl, ?_⟩
        unfold get_conversation
        rw [using_database_set_db, if_pos hdb]
        simp only [List.find?_append, hfind, Option.none_or]
        rw [List.find?_cons_of_pos _ (by simp)]
        rfl
    | false =>
      rw [if_neg (by simp [hdb])] at h
      simp only [Except.ok.injEq, Prod.mk.injEq] at h
      obtain ⟨rfl, rfl⟩ := h
      refine ⟨rfl, ?_⟩
      unfold get_conversation
      rw [using_database_set_files, if_neg (by simp [hdb])]
      exact readFile_writeFile_self _ _ _
  obtain ⟨rfl, hget⟩ := hmain
  exact ⟨rfl, rfl, rfl, rfl, rfl, hget⟩

theorem create_then_get_roundtrip_witness :
    get_conversation
      ⟨none, "/data", [],
        writeFile [] (get_conversation_path "/data" "c1")
          (newConversation "2024-01-01T00:00:00" "c1")⟩ "c1"
      = some (newConversation "2024-01-01T00:00:00" "c1") :=
  (create_then_get_roundtrip emptyFileState "2024-01-01T00:00:00" "c1"
    (by decide) _ _ rfl).2.2.2.2.2

/-- Key facts shared by the three helpers: after `get` → `setField` → `save`
on an existing, consistently-keyed record, `get` observes the updated field
while the other three fields are unchanged, under either backend. -/
theorem get_after_save_setField (s s' : State) (id : String) (conv m : JValue)
    (key : String) (hkey : key = "messages" ∨ key = "title")
    (hg : get_conversation s id = some conv)
    (hid : conv.lookup "id" = some (.str id))
    (hs : save_conversation s (conv.setField key m) = .ok s') :
    ∃ conv', get_conversation s' id = some conv' ∧
      conv'.lookup key = some m ∧
      (∀ k, k ≠ key → conv'.lookup k = conv.lookup k) := by
  obtain ⟨fields, hobj⟩ : ∃ fields, conv = .obj fields := by
    cases conv <;> simp [JValue.lookup] at hid ⊢
  have hkid : key ≠ "id" := by rcases hkey with rfl | rfl <;> decide
  cases hdb : using_database s with
  | true =>
    -- relational backend: the row is rewritten in place and the dict is
    -- rebuilt from the updated row
    unfold get_conversation at hg
    rw [if_pos hdb] at hg
    cases hfind : s.db.find? (fun r => r.id == id) with
    | none => rw [hfind] at hg; simp at hg
    | some r =>
      rw [hfind] at hg
      have hconv : conv = rowToConversation r := by
        injection hg with hg; exact hg.symm
      have hrid : r.id = id := by
        have := List.find?_some hfind
        simpa using this
      subst hconv
      subst hrid
      -- the updated dict, explicitly
      have hconv' : (rowToConversation r).setField key m =
          (if key = "messages" then
            JValue.obj [("id", .str r.id), ("created_at", .str r.created_at),
                        ("title", .str r.title), ("messages", m)]
          else
            JValue.obj [("id", .str r.id), ("created_at", .str r.created_at),
                        ("title", m), ("messages", r.messages)]) := by
        rcases hkey with rfl | rfl <;>
          simp [rowToConversation, JValue.setField, setKey]
      unfold save_conversation at hs
      rw [if_pos hdb, hconv'] at hs
      rcases hkey with rfl | rfl
      · simp only [if_pos rfl] at hs
        simp only [JValue.lookup, lookupKey, String.reduceEq, reduceIte, Except.ok.injEq] at hs
        subst hs
        refine ⟨rowToConversation ⟨r.id, r.created_at, r.title, m⟩, ?_, ?_, ?_⟩
        · unfold get_conversation
          rw [using_database_set_db, if_pos hdb]
          rw [find?_map_update s.db r.id r
                (fun x => { x with title := r.title, messages := m })
                hfind (fun x => rfl)]
        · simp [rowToConversation, JValue.lookup, lookupKey]
        · intro k hk
          simp only [rowToConversation, JValue.lookup, lookupKey]
          by_cases h1 : k = "id"
          · simp [h1]
          · by_cases h2 : k = "created_at"
            · simp [h1, h2, Ne.symm h1]
            · by_cases h3 : k = "title"
              · simp [Ne.symm h1, Ne.symm h2, h3]
              · simp [Ne.symm h1, Ne.symm h2, Ne.symm h3, hk, Ne.symm hk]
      · -- key = "title": the new title must be a string for the UPDATE to
        -- succeed; extract it from the successful save
        simp only [String.reduceEq, reduceIte] at hs
        cases hm : m with
        | str t =>
          subst hm
          simp only [JValue.lookup, lookupKey, String.reduceEq, reduceIte, Except.ok.injEq] at hs
          subst hs
          refine ⟨rowToConversation ⟨r.id, r.created_at, t, r.messages⟩, ?_, ?_, ?_⟩
          · unfold get_conversation
            rw [using_database_set_db, if_pos hdb]
            rw [find?_map_update s.db r.id r
                  (fun x => { x with title := t, messages := r.messages })
                  hfind (fun x => rfl)]
          · simp [rowToConversation, JValue.lookup, lookupKey]
          · intro k hk
            simp only [rowToConversation, JValue.lookup, lookupKey]
            by_cases h1 : k = "id"
            · simp [h1]
            · by_cases h2 : k = "created_at"
              · simp [h1, h2, Ne.symm h1]
              · by_cases h4 : k = "messages"
                · simp [Ne.symm h1, Ne.symm h2, h4, hk]
                · simp [Ne.symm h1, Ne.symm h2, Ne.symm h4, hk, Ne.symm hk]
        | null => subst hm; simp [JValue.lookup, lookupKey] at hs
        | bool b => subst hm; simp [JValue.lookup, lookupKey] at hs
        | num n => subst hm; simp [JValue.lookup, lookupKey] at hs
        | arr xs => subst hm; simp [JValue.lookup, lookupKey] at hs
        | obj fs => subst hm; simp [JValue.lookup, lookupKey] at hs
  | false =>
    -- file backend: the whole updated dict is dumped at the path derived
    -- from its own id field and read back verbatim
    subst hobj
    have hid' : ((JValue.obj fields).setField key m).lookup "id"
        = some (.str id) := by
      rw [lookup_setField_ne _ fields rfl key "id" m (Ne.symm hkid)]
      exact hid
    unfold save_conversation at hs
    rw [if_neg (by simp [hdb])] at hs
    rw [hid'] at hs
    simp only [Except.ok.injEq] at hs
    subst hs
    refine ⟨(JValue.obj fields).setField key m, ?_, ?_, ?_⟩
    · unfold get_conversation at hg ⊢
      rw [using_database_set_files, if_neg (by simp [hdb])]
      exact readFile_writeFile_self _ _ _
    · exact lookup_setField_self _ fields rfl _ _
    · intro k hk
      exact lookup_setField_ne _ fields rfl _ _ _ hk

/-- A file-backend state holding one freshly created conversation "c1". -/
def oneConvFileState : State :=
  ⟨none, "/data", [], [("/data/c1.json", newConversation "t0" "c1")]⟩

/-- A relational-backend state holding one freshly created conversation
"c1". -/
def oneConvDbState : State :=
  ⟨some "postgres://db", "/data", [⟨"c1", "t0", "New Conversation", .arr []⟩], []⟩

/-- C3: for an existing conversation, `add_user_message` appends exactly one
entry — role "user", content the given string — to the end of the messages
sequence, leaving the previously stored messages and the id, created_at and
title fields unchanged, as observed by a subsequent `get_conversation`. -/
theorem add_user_message_appends (s s' : State) (id content : String)
    (conv : JValue) (ms : List JValue)
    (hg : get_conversation s id = some conv)
    (hid : conv.lookup "id" = some (.str id))
    (hms : conv.lookup "messages" = some (.arr ms))
    (h : add_user_message s id content = .ok s') :
    (mkUserMessage content).lookup "role" = some (.str "user") ∧
    (mkUserMessage content).lookup "content" = some (.str content) ∧
    ∃ conv', get_conversation s' id = some conv' ∧
      conv'.lookup "messages" = some (.arr (ms ++ [mkUserMessage content])) ∧
      conv'.lookup "id" = conv.lookup "id" ∧
      conv'.lookup "created_at" = conv.lookup "created_at" ∧
      conv'.lookup "title" = conv.lookup "title" := by
  unfold add_user_message at h
  rw [hg] at h
  simp only [hms] at h
  obtain ⟨conv', hget, hmsg, hframe⟩ :=
    get_after_save_setField s s' id conv (.arr (ms ++ [mkUserMessage content]))
      "messages" (Or.inl rfl) hg hid h
  exact ⟨rfl, rfl, conv', hget, hmsg,
    hframe "id" (by decide), hframe "created_at" (by decide),
    hframe "title" (by decide)⟩

theorem add_user_message_appends_witness :
    (mkUserMessage "hello").lookup "role" = some (.str "user") ∧
    (mkUserMessage "hello").lookup "content" = some (.str "hello") :=
  ⟨(add_user_message_appends oneConvFileState _ "c1" "hello"
      (newConversation "t0" "c1") [] rfl rfl rfl rfl).1,
   (add_user_message_appends oneConvFileState _ "c1" "hello"
      (newConversation "t0" "c1") [] rfl rfl rfl rfl).2.1⟩

/-- C5: for an existing conversation, `add_assistant_message` appends one
entry with role "assistant" whose stage1, stage2 and stage3 payloads are
structurally equal to the inputs after the save/get round trip — the
payloads are stored verbatim, uninterpreted. -/
theorem add_assistant_message_preserves_stages (s s' : State) (id : String)
    (stage1 stage2 : List JValue) (stage3 : JValue)
    (conv : JValue) (ms : List JValue)
    (hg : get_conversation s id = some conv)
    (hid : conv.lookup "id" = some (.str id))
    (hms : conv.lookup "messages" = some (.arr ms))
    (h : add_assistant_message s id stage1 stage2 stage3 = .ok s') :
    (mkAssistantMessage stage1 stage2 stage3).lookup "role" = some (.str "assistant") ∧
    (mkAssistantMessage stage1 stage2 stage3).lookup "stage1" = some (.arr stage1) ∧
    (mkAssistantMessage stage1 stage2 stage3).lookup "stage2" = some (.arr stage2) ∧
    (mkAssistantMessage stage1 stage2 stage3).lookup "stage3" = some stage3 ∧
    ∃ conv', get_conversation s' id = some conv' ∧
      conv'.lookup "messages"
        = some (.arr (ms ++ [mkAssistantMessage stage1 stage2 stage3])) := by
  unfold add_assistant_message at h
  rw [hg] at h
  simp only [hms] at h
  obtain ⟨conv', hget, hmsg, _⟩ :=
    get_after_save_setField s s' id conv
      (.arr (ms ++ [mkAssistantMessage stage1 stage2 stage3]))
      "messages" (Or.inl rfl) hg hid h
  exact ⟨rfl, rfl, rfl, rfl, conv', hget, hmsg⟩

theorem add_assistant_message_preserves_stages_witness :
    (mkAssistantMessage [.obj [("model", .str "a"), ("text", .str "x")]]
        [.obj [("rank", .num 1)]] (.obj [("text", .str "final")])).lookup "stage3"
      = some (.obj [("text", .str "final")]) :=
  (add_assistant_message_preserves_stages oneConvDbState _ "c1"
    [.obj [("model", .str "a"), ("text", .str "x")]]
    [.obj [("rank", .num 1)]] (.obj [("text", .str "final")])
    (newConversation "t0" "c1") [] rfl rfl rfl rfl).2.2.2.1

/-- C6: for an existing conversation, `update_conversation_title` sets the
stored title to the given string while messages, created_at and id are
unchanged, as observed by a subsequent `get_conversation`. -/
theorem update_title_frame (s s' : State) (id title : String) (conv : JValue)
    (hg : get_conversation s id = some conv)
    (hid : conv.lookup "id" = some (.str id))
    (h : update_conversation_title s id title = .ok s') :
    ∃ conv', get_conversation s' id = some conv' ∧
      conv'.lookup "title" = some (.str title) ∧
      conv'.lookup "id" = conv.lookup "id" ∧
      conv'.lookup "created_at" = conv.lookup "created_at" ∧
      conv'.lookup "messages" = conv.lookup "messages" := by
  obtain ⟨fields, hobj⟩ : ∃ fields, conv = .obj fields := by
    cases conv <;> simp [JValue.lookup] at hid ⊢
  unfold update_conversation_title at h
  rw [hg] at h
  rw [hobj] at h
  simp only [] at h
  rw [← hobj] at h
  obtain ⟨conv', hget, htitle, hframe⟩ :=
    get_after_save_setField s s' id conv (.str title)
      "title" (Or.inr rfl) hg hid h
  exact ⟨conv', hget, htitle,
    hframe "id" (by decide), hframe "created_at" (by decide),
    hframe "messages" (by decide)⟩

theorem update_title_frame_witness :
    ∃ conv',
      get_conversation
        ⟨none, "/data", [],
          writeFile [("/data/c1.json", newConversation "t0" "c1")] "/data/c1.json"
            ((newConversation "t0" "c1").setField "title" (.str "My Chat"))⟩ "c1"
        = some conv' ∧
      conv'.lookup "title" = some (.str "My Chat") ∧
      conv'.lookup "id" = (newConversation "t0" "c1").lookup "id" ∧
      conv'.lookup "created_at" = (newConversation "t0" "c1").lookup "created_at" ∧
      conv'.lookup "messages" = (newConversation "t0" "c1").lookup "messages" :=
  update_title_frame oneConvFileState _ "c1" "My Chat"
    (newConversation "t0" "c1") rfl rfl rfl

/-- C7: saving the unmodified value returned by `get` leaves the stored
state identical: the file is rewritten with its own content, the row is
updated to its own values.  The primary-key invariant (no duplicate row
ids) is assumed for the relational backend. -/
theorem save_after_get_noop (s : State) (id : String) (conv : JValue)
    (hg : get_conversation s id = some conv)
    (hid : conv.lookup "id" = some (.str id))
    (hnd : (s.db.map DbRow.id).Nodup) :
    save_conversation s conv = .ok s := by
  cases hdb : using_database s with
  | true =>
    unfold get_conversation at hg
    rw [if_pos hdb] at hg
    cases hfind : s.db.find? (fun r => r.id == id) with
    | none => rw [hfind] at hg; simp at hg
    | some r =>
      rw [hfind] at hg
      have hconv : conv = rowToConversation r := by
        injection hg with hg; exact hg.symm
      have hrid : r.id = id := by simpa using List.find?_some hfind
      subst hconv
      subst hrid
      unfold save_conversation
      rw [if_pos hdb]
      simp only [rowToConversation, JValue.lookup, lookupKey, String.reduceEq,
        reduceIte]
      rw [map_update_eq_self s.db r.id r
            (fun x => { x with title := r.title, messages := r.messages })
            hfind hnd rfl]
  | false =>
    unfold get_conversation at hg
    rw [if_neg (by simp [hdb])] at hg
    simp only [readFile] at hg
    unfold save_conversation
    rw [if_neg (by simp [hdb])]
    rw [hid]
    have hw := writeFile_of_lookup s.files (get_conversation_path s.dataDir id) conv hg
    simp [hw]

theorem save_after_get_noop_witness :
    save_conversation oneConvDbState (newConversation "t0" "c1")
      = .ok oneConvDbState :=
  save_after_get_noop oneConvDbState "c1" (newConversation "t0" "c1")
    rfl rfl (by decide)

/-- The C8 invariant: every stored record's messages field is a JSON array
(never null), under both backends. -/
def messagesWF (s : State) : Prop :=
  (∀ r ∈ s.db, ∃ ms, r.messages = JValue.arr ms) ∧
  (∀ e ∈ s.files, ∃ ms, JValue.lookup e.2 "messages" = some (JValue.arr ms))

theorem mem_writeFile (fs : List (String × JValue)) (p : String) (v : JValue) :
    ∀ e ∈ writeFile fs p v, e ∈ fs ∨ e = (p, v) := by
  induction fs with
  | nil => intro e he; simp [writeFile] at he; simp [he]
  | cons a rest ih =>
    obtain ⟨p', v'⟩ := a
    intro e he
    by_cases hp : p' = p
    · simp [writeFile, hp] at he
      rcases he with rfl | he
      · exact Or.inr rfl
      · exact Or.inl (List.mem_cons_of_mem _ he)
    · simp only [writeFile, if_neg hp, List.mem_cons] at he
      rcases he with rfl | he
      · exact Or.inl (List.mem_cons_self _ _)
      · rcases ih e he with h | h
        · exact Or.inl (List.mem_cons_of_mem _ h)
        · exact Or.inr h

theorem lookupKey_mem (fs : List (String × JValue)) (p : String) (v : JValue)
    (h : lookupKey fs p = some v) : (p, v) ∈ fs := by
  induction fs with
  | nil => simp [lookupKey] at h
  | cons a rest ih =>
    obtain ⟨p', v'⟩ := a
    by_cases hp : p' = p
    · subst hp
      simp [lookupKey] at h
      simp [h]
    · simp [lookupKey, hp] at h
      exact List.mem_cons_of_mem _ (ih h)

/-- Every conversation `get_conversation` returns from a well-formed state
has an array-valued messages field. -/
theorem messagesWF_get (s : State) (hWF : messagesWF s) (id : String)
    (conv : JValue) (hg : get_conversation s id = some conv) :
    ∃ ms, conv.lookup "messages" = some (JValue.arr ms) := by
  unfold get_conversation at hg
  cases hdb : using_database s with
  | true =>
    rw [if_pos hdb] at hg
    cases hfind : s.db.find? (fun r => r.id == id) with
    | none => rw [hfind] at hg; simp at hg
    | some r =>
      rw [hfind] at hg
      have hconv : conv = rowToConversation r := by
        injection hg with hg; exact hg.symm
      obtain ⟨ms, hms⟩ := hWF.1 r (List.mem_of_find?_eq_some hfind)
      subst hconv
      refine ⟨ms, ?_⟩
      simp [rowToConversation, JValue.lookup, lookupKey, hms]
  | false =>
    rw [if_neg (by simp [hdb])] at hg
    simp only [readFile] at hg
    exact hWF.2 _ (lookupKey_mem _ _ _ hg)

/-- `save_conversation` preserves the invariant when the conversation being
saved has an array-valued messages field. -/
theorem messagesWF_save (s : State) (hWF : messagesWF s) (conv : JValue)
    (ms : List JValue) (s' : State)
    (hm : conv.lookup "messages" = some (JValue.arr ms))
    (hs : save_conversation s conv = .ok s') : messagesWF s' := by
  unfold save_conversation at hs
  cases hdb : using_database s with
  | true =>
    rw [if_pos hdb] at hs
    rw [hm] at hs
    cases ht : conv.lookup "title" with
    | none => rw [ht] at hs; simp at hs
    | some tv =>
      rw [ht] at hs
      cases tv with
      | str t =>
        cases hi : conv.lookup "id" with
        | none => rw [hi] at hs; simp at hs
        | some iv =>
          rw [hi] at hs
          cases iv with
          | str i =>
            simp only [Except.ok.injEq] at hs
            subst hs
            constructor
            · intro r hr
              simp only [List.mem_map] at hr
              obtain ⟨x, hx, rfl⟩ := hr
              by_cases hxi : x.id = i
              · refine ⟨ms, ?_⟩
                simp [hxi]
              · obtain ⟨ms', hms'⟩ := hWF.1 x hx
                refine ⟨ms', ?_⟩
                simp [hxi, hms']
            · exact hWF.2
          | null => simp at hs
          | bool b => simp at hs
          | num n => simp at hs
          | arr xs => simp at hs
          | obj fs => simp at hs
      | null => simp at hs
      | bool b => simp at hs
      | num n => simp at hs
      | arr xs => simp at hs
      | obj fs => simp at hs
  | false =>
    rw [if_neg (by simp [hdb])] at hs
    cases hi : conv.lookup "id" with
    | none => rw [hi] at hs; simp at hs
    | some iv =>
      rw [hi] at hs
      cases iv with
      | str i =>
        simp only [Except.ok.injEq] at hs
        subst hs
        refine ⟨hWF.1, ?_⟩
        intro e he
        rcases mem_writeFile _ _ _ e he with h | h
        · exact hWF.2 e h
        · subst h
          exact ⟨ms, hm⟩
      | null => simp at hs
      | bool b => simp at hs
      | num n => simp at hs
      | arr xs => simp at hs
      | obj fs => simp at hs

/-- C8: the messages attribute is always a sequence and never null:
`create_conversation` initializes it to the empty array and persists that;
`get_conversation` only returns records with array-valued messages from a
well-formed state; `save_conversation` and the three append/update helpers
preserve the invariant for both backends. -/
theorem messages_always_sequence (s : State) (hWF : messagesWF s) :
    (∀ now id conv s', create_conversation s now id = .ok (conv, s') →
        conv.lookup "messages" = some (JValue.arr []) ∧ messagesWF s') ∧
    (∀ id conv, get_conversation s id = some conv →
        ∃ ms, conv.lookup "messages" = some (JValue.arr ms)) ∧
    (∀ conv ms s', conv.lookup "messages" = some (JValue.arr ms) →
        save_conversation s conv = .ok s' → messagesWF s') ∧
    (∀ id content s', add_user_message s id content = .ok s' → messagesWF s') ∧
    (∀ id stage1 stage2 stage3 s',
        add_assistant_message s id stage1 stage2 stage3 = .ok s' → messagesWF s') ∧
    (∀ id title s', update_conversation_title s id title = .ok s' →
        messagesWF s') := by
  refine ⟨?_, fun id conv hg => messagesWF_get s hWF id conv hg,
      fun conv ms s' hm hs => messagesWF_save s hWF conv ms s' hm hs, ?_, ?_, ?_⟩
  · -- create
    intro now id conv s' h
    unfold create_conversation at h
    cases hdb : using_database s with
    | true =>
      rw [if_pos hdb] at h
      cases hfind : s.db.find? (fun r => r.id == id) with
      | some r => rw [hfind] at h; simp at h
      | none =>
        rw [hfind] at h
        simp only [Option.isSome_none, Bool.false_eq_true, if_false,
          Except.ok.injEq, Prod.mk.injEq] at h
        obtain ⟨rfl, rfl⟩ := h
        refine ⟨rfl, ?_, hWF.2⟩
        intro r hr
        rcases List.mem_append.mp hr with hr | hr
        · exact hWF.1 r hr
        · simp only [List.mem_singleton] at hr
          subst hr
          exact ⟨[], rfl⟩
    | false =>
      rw [if_neg (by simp [hdb])] at h
      simp only [Except.ok.injEq, Prod.mk.injEq] at h
      obtain ⟨rfl, rfl⟩ := h
      refine ⟨rfl, hWF.1, ?_⟩
      intro e he
      rcases mem_writeFile _ _ _ e he with he | he
      · exact hWF.2 e he
      · subst he
        exact ⟨[], rfl⟩
  · -- add_user_message
    intro id content s' h
    unfold add_user_message at h
    cases hg : get_conversation s id with
    | none => rw [hg] at h; simp at h
    | some conv =>
      rw [hg] at h
      cases hm : conv.lookup "messages" with
      | none => simp only [hm] at h; simp at h
      | some mv =>
        simp only [hm] at h
        cases mv with
        | arr ms =>
          obtain ⟨fields, hobj⟩ : ∃ fields, conv = .obj fields := by
            cases conv <;> simp [JValue.lookup] at hm ⊢
          refine messagesWF_save s hWF _ (ms ++ [mkUserMessage content]) s' ?_ h
          exact lookup_setField_self conv fields hobj _ _
        | null => simp at h
        | bool b => simp at h
        | num n => simp at h
        | str t => simp at h
        | obj fs => simp at h
  · -- add_assistant_message
    intro id stage1 stage2 stage3 s' h
    unfold add_assistant_message at h
    cases hg : get_conversation s id with
    | none => rw [hg] at h; simp at h
    | some conv =>
      rw [hg] at h
      cases hm : conv.lookup "messages" with
      | none => simp only [hm] at h; simp at h
      | some mv =>
        simp only [hm] at h
        cases mv with
        | arr ms =>
          obtain ⟨fields, hobj⟩ : ∃ fields, conv = .obj fields := by
            cases conv <;> simp [JValue.lookup] at hm ⊢
          refine messagesWF_save s hWF _
            (ms ++ [mkAssistantMessage stage1 stage2 stage3]) s' ?_ h
          exact lookup_setField_self conv fields hobj _ _
        | null => simp at h
        | bool b => simp at h
        | num n => simp at h
        | str t => simp at h
        | obj fs => simp at h
  · -- update_conversation_title
    intro id title s' h
    unfold update_conversation_title at h
    cases hg : get_conversation s id with
    | none => rw [hg] at h; simp at h
    | some conv =>
      rw [hg] at h
      obtain ⟨ms, hm⟩ := messagesWF_get s hWF id conv hg
      obtain ⟨fields, hobj⟩ : ∃ fields, conv = .obj fields := by
        cases conv <;> simp [JValue.lookup] at hm ⊢
      subst hobj
      refine messagesWF_save s hWF _ ms s' ?_ h
      rw [lookup_setField_ne _ fields rfl "title" "messages" (.str title)
            (by decide)]
      exact hm

theorem messages_always_sequence_witness :
    (newConversation "t0" "c1").lookup "messages" = some (JValue.arr []) :=
  ((messages_always_sequence emptyFileState
      ⟨by simp [emptyFileState], by simp [emptyFileState]⟩).1 "t0" "c1" _ _ rfl).1

/-- C9: the presence of a non-empty `DATABASE_URL` is the sole backend
selection signal: `using_database` is true exactly when the connection
string is set and non-empty, no operation ever changes the configuration
(so the branch taken is identical for every call in the process), and each
mutating operation touches only the selected backend's store — the file map
is untouched under the relational backend and the table under the file
backend. -/
theorem backend_selected_solely_by_database_url (s : State) :
    (using_database s = true ↔ ∃ u, s.databaseUrl = some u ∧ u ≠ "") ∧
    (∀ now id conv s', create_conversation s now id = .ok (conv, s') →
        s'.databaseUrl = s.databaseUrl ∧ s'.dataDir = s.dataDir ∧
        (using_database s = true → s'.files = s.files) ∧
        (using_database s = false → s'.db = s.db)) ∧
    (∀ conv s', save_conversation s conv = .ok s' →
        s'.databaseUrl = s.databaseUrl ∧ s'.dataDir = s.dataDir ∧
        (using_database s = true → s'.files = s.files) ∧
        (using_database s = false → s'.db = s.db)) ∧
    (∀ id content s', add_user_message s id content = .ok s' →
        s'.databaseUrl = s.databaseUrl ∧ s'.dataDir = s.dataDir ∧
        (using_database s = true → s'.files = s.files) ∧
        (using_database s = false → s'.db = s.db)) ∧
    (∀ id stage1 stage2 stage3 s',
        add_assistant_message s id stage1 stage2 stage3 = .ok s' →
        s'.databaseUrl = s.databaseUrl ∧ s'.dataDir = s.dataDir ∧
        (using_database s = true → s'.files = s.files) ∧
        (using_database s = false → s'.db = s.db)) ∧
    (∀ id title s', update_conversation_title s id title = .ok s' →
        s'.databaseUrl = s.databaseUrl ∧ s'.dataDir = s.dataDir ∧
        (using_database s = true → s'.files = s.files) ∧
        (using_database s = false → s'.db = s.db)) := by
  have hsave : ∀ conv s', save_conversation s conv = .ok s' →
      s'.databaseUrl = s.databaseUrl ∧ s'.dataDir = s.dataDir ∧
      (using_database s = true → s'.files = s.files) ∧
      (using_database s = false → s'.db = s.db) := by
    intro conv s' hs
    unfold save_conversation at hs
    cases hdb : using_database s with
    | true =>
      rw [if_pos hdb] at hs
      split at hs
      · simp only [Except.ok.injEq] at hs
        subst hs
        exact ⟨rfl, rfl, fun _ => rfl, fun hf => by simp [hdb] at hf⟩
      · simp at hs
    | false =>
      rw [if_neg (by simp [hdb])] at hs
      split at hs
      · simp only [Except.ok.injEq] at hs
        subst hs
        exact ⟨rfl, rfl, fun ht => by simp [hdb] at ht, fun _ => rfl⟩
      · simp at hs
  refine ⟨?_, ?_, hsave, ?_, ?_, ?_⟩
  · unfold using_database
    cases hurl : s.databaseUrl with
    | none => simp
    | some u => simp [bne_iff_ne]
  · intro now id conv s' h
    unfold create_conversation at h
    cases hdb : using_database s with
    | true =>
      rw [if_pos hdb] at h
      cases hfind : (s.db.find? (fun r => r.id == id)).isSome with
      | true => rw [hfind] at h; simp at h
      | false =>
        rw [hfind] at h
        simp only [Bool.false_eq_true, if_false, Except.ok.injEq,
          Prod.mk.injEq] at h
        obtain ⟨-, rfl⟩ := h
        exact ⟨rfl, rfl, fun _ => rfl, fun hf => by simp [hdb] at hf⟩
    | false =>
      rw [if_neg (by simp [hdb])] at h
      simp only [Except.ok.injEq, Prod.mk.injEq] at h
      obtain ⟨-, rfl⟩ := h
      exact ⟨rfl, rfl, fun ht => by simp [hdb] at ht, fun _ => rfl⟩
  · intro id content s' h
    unfold add_user_message at h
    cases hg : get_conversation s id with
    | none => rw [hg] at h; simp at h
    | some conv =>
      rw [hg] at h
      cases hm : conv.lookup "messages" with
      | none => simp only [hm] at h; simp at h
      | some mv =>
        simp only [hm] at h
        cases mv with
        | arr ms => exact hsave _ s' h
        | null => simp at h
        | bool b => simp at h
        | num n => simp at h
        | str t => simp at h
        | obj fs => simp at h
  · intro id stage1 stage2 stage3 s' h
    unfold add_assistant_message at h
    cases hg : get_conversation s id with
    | none => rw [hg] at h; simp at h
    | some conv =>
      rw [hg] at h
      cases hm : conv.lookup "messages" with
      | none => simp only [hm] at h; simp at h
      | some mv =>
        simp only [hm] at h
        cases mv with
        | arr ms => exact hsave _ s' h
        | null => simp at h
        | bool b => simp at h
        | num n => simp at h
        | str t => simp at h
        | obj fs => simp at h
  · intro id title s' h
    unfold update_conversation_title at h
    cases hg : get_conversation s id with
    | none => rw [hg] at h; simp at h
    | some conv =>
      rw [hg] at h
      cases conv with
      | obj fields => exact hsave _ s' h
      | null => simp at h
      | bool b => simp at h
      | num n => simp at h
      | str t => simp at h
      | arr xs => simp at h

theorem backend_selected_solely_by_database_url_witness :
    using_database emptyDbState = true :=
  (backend_selected_solely_by_database_url emptyDbState).1.mpr
    ⟨"postgres://db", rfl, by decide⟩

/-! ### Order and sorting lemmas for the listing -/

theorem charListLe_total : ∀ a b : List Char, charListLe a b || charListLe b a
  | [], _ => by simp [charListLe]
  | _ :: _, [] => by simp [charListLe]
  | a :: as, b :: bs => by
    simp only [charListLe]
    by_cases h1 : a.toNat < b.toNat
    · simp [h1]
    · by_cases h2 : b.toNat < a.toNat
      · simp [h1, h2]
      · simpa [h1, h2] using charListLe_total as bs

theorem charListLe_trans : ∀ a b c : List Char,
    charListLe a b = true → charListLe b c = true → charListLe a c = true
  | [], _, _, _, _ => by simp [charListLe]
  | _ :: _, [], _, h1, _ => by simp [charListLe] at h1
  | _ :: _, _ :: _, [], _, h2 => by simp [charListLe] at h2
  | a :: as, b :: bs, c :: cs, h1, h2 => by
    simp only [charListLe] at h1 h2 ⊢
    have hba : ¬ b.toNat < a.toNat := by
      intro hba
      rw [if_neg (by omega), if_pos hba] at h1
      exact Bool.noConfusion h1
    have hcb : ¬ c.toNat < b.toNat := by
      intro hcb
      rw [if_neg (by omega), if_pos hcb] at h2
      exact Bool.noConfusion h2
    by_cases hac : a.toNat < c.toNat
    · rw [if_pos hac]
    · have hab : ¬ a.toNat < b.toNat := by omega
      have hbc : ¬ b.toNat < c.toNat := by omega
      rw [if_neg hab, if_neg hba] at h1
      rw [if_neg hbc, if_neg hcb] at h2
      rw [if_neg hac, if_neg (by omega)]
      exact charListLe_trans as bs cs h1 h2

theorem summaryDesc_total (a b : Summary) : summaryDesc a b || summaryDesc b a :=
  charListLe_total _ _

theorem summaryDesc_trans (a b c : Summary) :
    summaryDesc a b = true → summaryDesc b c = true → summaryDesc a c = true :=
  fun h1 h2 => charListLe_trans _ _ _ h2 h1

theorem insertBy_perm (le : α → α → Bool) (x : α) :
    ∀ l : List α, (insertBy le x l).Perm (x :: l)
  | [] => List.Perm.refl _
  | y :: ys => by
    simp only [insertBy]
    by_cases h : le x y
    · rw [if_pos h]
    · rw [if_neg h]
      exact ((insertBy_perm le x ys).cons y).trans (List.Perm.swap x y ys)

theorem sortBy_perm (le : α → α → Bool) : ∀ l : List α, (sortBy le l).Perm l
  | [] => List.Perm.refl _
  | x :: xs =>
    (insertBy_perm le x (sortBy le xs)).trans ((sortBy_perm le xs).cons x)

theorem pairwise_insertBy (le : α → α → Bool)
    (htrans : ∀ a b c, le a b = true → le b c = true → le a c = true)
    (htotal : ∀ a b, le a b || le b a) (x : α) :
    ∀ l : List α, l.Pairwise (fun a b => le a b = true) →
      (insertBy le x l).Pairwise (fun a b => le a b = true)
  | [], _ => by simp [insertBy]
  | y :: ys, h => by
    obtain ⟨hy, hys⟩ := List.pairwise_cons.mp h
    simp only [insertBy]
    by_cases hxy : le x y
    · rw [if_pos hxy]
      refine List.Pairwise.cons ?_ h
      intro z hz
      rcases List.mem_cons.mp hz with rfl | hz
      · exact hxy
      · exact htrans x y z hxy (hy z hz)
    · rw [if_neg hxy]
      refine List.Pairwise.cons ?_ (pairwise_insertBy le htrans htotal x ys hys)
      intro z hz
      rcases List.mem_cons.mp ((insertBy_perm le x ys).mem_iff.mp hz) with hzx | hz
      · rw [hzx]
        have h2 := htotal x y
        simp only [Bool.or_eq_true] at h2
        rcases h2 with h2 | h2
        · exact absurd h2 hxy
        · exact h2
      · exact hy z hz

theorem pairwise_sortBy (le : α → α → Bool)
    (htrans : ∀ a b c, le a b = true → le b c = true → le a c = true)
    (htotal : ∀ a b, le a b || le b a) :
    ∀ l : List α, (sortBy le l).Pairwise (fun a b => le a b = true)
  | [] => by simp [sortBy]
  | x :: xs =>
    pairwise_insertBy le htrans htotal x (sortBy le xs)
      (pairwise_sortBy le htrans htotal xs)

theorem mapExcept_length (f : α → Except StorageError β) :
    ∀ (xs : List α) (ys : List β), mapExcept f xs = .ok ys →
      ys.length = xs.length
  | [], ys, h => by
    simp only [mapExcept, Except.ok.injEq] at h
    simp [← h]
  | x :: xs, ys, h => by
    simp only [mapExcept] at h
    cases hfx : f x with
    | error e => simp [hfx] at h
    | ok y =>
      simp only [hfx] at h
      cases hrest : mapExcept f xs with
      | error e => simp [hrest] at h
      | ok zs =>
        simp only [hrest, Except.ok.injEq] at h
        subst h
        simp [mapExcept_length f xs zs hrest]

theorem mapExcept_mem (f : α → Except StorageError β) :
    ∀ (xs : List α) (ys : List β), mapExcept f xs = .ok ys →
      ∀ x ∈ xs, ∃ y ∈ ys, f x = .ok y
  | [], ys, h => by simp
  | x :: xs, ys, h => by
    simp only [mapExcept] at h
    cases hfx : f x with
    | error e => simp [hfx] at h
    | ok y =>
      simp only [hfx] at h
      cases hrest : mapExcept f xs with
      | error e => simp [hrest] at h
      | ok zs =>
        simp only [hrest, Except.ok.injEq] at h
        subst h
        intro a ha
        rcases List.mem_cons.mp ha with rfl | ha
        · exact ⟨y, List.mem_cons_self _ _, hfx⟩
        · obtain ⟨b, hb, hfb⟩ := mapExcept_mem f xs zs hrest a ha
          exact ⟨b, List.mem_cons_of_mem _ hb, hfb⟩

/-- C4: a successful `list_conversations` returns the summaries ordered by
`created_at`, most recent first (for either backend); under the relational
backend there is one summary per row, under the file backend one per `.json`
file of the data directory, each carrying that record's id, created_at and
title and a message_count equal to the length of its stored messages array
(computed, not stored). -/
theorem list_sorted_complete (s : State) (sums : List Summary)
    (h : list_conversations s = .ok sums) :
    List.Pairwise (fun a b => summaryDesc a b = true) sums ∧
    (using_database s = true →
      sums.length = s.db.length ∧
      ∀ r ∈ s.db, ∀ ms, r.messages = JValue.arr ms →
        (⟨r.id, r.created_at, r.title, ms.length⟩ : Summary) ∈ sums) ∧
    (using_database s = false →
      sums.length = (s.files.filter
        (fun e => inDataDir s.dataDir e.1 && strEndsWith e.1 ".json")).length ∧
      ∀ e ∈ s.files.filter
          (fun e => inDataDir s.dataDir e.1 && strEndsWith e.1 ".json"),
        ∀ i c t ms, JValue.lookup e.2 "id" = some (.str i) →
          JValue.lookup e.2 "created_at" = some (.str c) →
          (JValue.lookup e.2 "title").getD (.str "New Conversation") = .str t →
          JValue.lookup e.2 "messages" = some (.arr ms) →
          (⟨i, c, t, ms.length⟩ : Summary) ∈ sums) := by
  unfold list_conversations at h
  cases hdb : using_database s with
  | true =>
    rw [if_pos hdb] at h
    cases hmap : mapExcept rowSummary s.db with
    | error e => simp [hmap] at h
    | ok raw =>
      simp only [hmap, Except.ok.injEq] at h
      subst h
      refine ⟨pairwise_sortBy _ summaryDesc_trans summaryDesc_total raw,
        fun _ => ⟨?_, ?_⟩, fun hfalse => by simp at hfalse⟩
      · rw [(sortBy_perm summaryDesc raw).length_eq]
        exact mapExcept_length _ _ _ hmap
      · intro r hr ms hms
        obtain ⟨y, hy, hfy⟩ := mapExcept_mem _ _ _ hmap r hr
        have hyv : y = ⟨r.id, r.created_at, r.title, ms.length⟩ := by
          unfold rowSummary at hfy
          simp only [hms, jsonb_array_length, Except.ok.injEq] at hfy
          exact hfy.symm
        subst hyv
        exact (sortBy_perm summaryDesc raw).mem_iff.mpr hy
  | false =>
    rw [if_neg (by simp [hdb])] at h
    cases hmap : mapExcept (fun e => fileSummary e.2)
        (s.files.filter
          (fun e => inDataDir s.dataDir e.1 && strEndsWith e.1 ".json")) with
    | error e => simp [hmap] at h
    | ok raw =>
      simp only [hmap, Except.ok.injEq] at h
      subst h
      refine ⟨pairwise_sortBy _ summaryDesc_trans summaryDesc_total raw,
        fun htrue => by simp at htrue, fun _ => ⟨?_, ?_⟩⟩
      · rw [(sortBy_perm summaryDesc raw).length_eq]
        exact mapExcept_length _ _ _ hmap
      · intro e he i c t ms hi hc ht hms
        obtain ⟨y, hy, hfy⟩ := mapExcept_mem _ _ _ hmap e he
        have hyv : y = ⟨i, c, t, ms.length⟩ := by
          unfold fileSummary at hfy
          simp only [hi, hc, ht, hms, Except.ok.injEq] at hfy
          exact hfy.symm
        subst hyv
        exact (sortBy_perm summaryDesc raw).mem_iff.mpr hy

/-- A file-backend state with three conversations created at t1 < t2 < t3. -/
def threeConvFileState : State :=
  ⟨none, "/data", [],
    [("/data/a.json", newConversation "t1" "a"),
     ("/data/b.json", newConversation "t2" "b"),
     ("/data/c.json", newConversation "t3" "c")]⟩

theorem list_sorted_complete_witness :
    List.Pairwise (fun a b => summaryDesc a b = true)
      (sortBy summaryDesc
        [⟨"a", "t1", "New Conversation", 0⟩,
         ⟨"b", "t2", "New Conversation", 0⟩,
         ⟨"c", "t3", "New Conversation", 0⟩]) :=
  (list_sorted_complete threeConvFileState _ rfl).1

/-! ### Path semantics for the traversal claim -/

/-- Split a character list at every '/'. -/
def splitSlash : List Char → List (List Char)
  | [] => [[]]
  | c :: cs =>
    match splitSlash cs with
    | [] => [[]]
    | comp :: rest =>
        if c = '/' then [] :: comp :: rest else (c :: comp) :: rest

/-- Resolve "", "." and ".." components against an accumulated stack, the
way the operating system resolves an absolute path. -/
def normComps : List String → List String → List String
  | acc, [] => acc
  | acc, c :: cs =>
    if c = "" ∨ c = "." then normComps acc cs
    else if c = ".." then normComps acc.dropLast cs
    else normComps (acc ++ [c]) cs

/-- Join components with '/'. -/
def joinSlash : List String → String
  | [] => ""
  | [c] => c
  | c :: cs => c ++ "/" ++ joinSlash cs

/-- The file an absolute path actually addresses, with "", "." and ".."
segments resolved. -/
def normalizePath (p : String) : String :=
  "/" ++ joinSlash (normComps [] ((splitSlash p.data).map (fun l => String.mk l)))

/-- Whether the file an absolute path addresses lies inside a directory. -/
def pathInsideDir (dir p : String) : Bool :=
  strStartsWith (normalizePath p) (normalizePath dir ++ "/")

/-- C10: `get_conversation_path` derives the storage path by raw
concatenation `<data_dir>/<id>.json` with no validation of the id; an id
containing ".." segments therefore makes create/get/save address a file
outside the configured data directory: with data directory "/data", the id
"../secret" is stored at and read back from "/data/../secret.json", a path
that resolves to "/secret.json", outside "/data". -/
theorem conversation_path_unsanitized :
    (∀ d id, strStartsWith (id ++ ".json") "/" = false → d ≠ "" →
       strEndsWith d "/" = false →
       get_conversation_path d id = d ++ "/" ++ (id ++ ".json")) ∧
    get_conversation_path "/data" "../secret" = "/data/../secret.json" ∧
    normalizePath (get_conversation_path "/data" "../secret") = "/secret.json" ∧
    pathInsideDir "/data" (get_conversation_path "/data" "../secret") = false ∧
    (∀ s now, using_database s = false → s.dataDir = "/data" →
       ∃ conv s', create_conversation s now "../secret" = .ok (conv, s') ∧
         readFile s'.files "/data/../secret.json" = some conv ∧
         get_conversation s' "../secret" = some conv) := by
  refine ⟨?_, rfl, rfl, rfl, ?_⟩
  · intro d id h1 h2 h3
    unfold get_conversation_path osPathJoin
    rw [h1]
    simp only [Bool.false_eq_true, if_false, if_neg h2, h3]
  · intro s now hdb hdir
    unfold create_conversation
    rw [if_neg (by simp [hdb])]
    refine ⟨newConversation now "../secret", _, rfl, ?_, ?_⟩
    · have hp : get_conversation_path s.dataDir "../secret"
          = "/data/../secret.json" := by rw [hdir]; rfl
      simp only [hp]
      exact readFile_writeFile_self _ _ _
    · unfold get_conversation
      rw [using_database_set_files, if_neg (by simp [hdb])]
      rw [hdir]
      exact readFile_writeFile_self _ _ _

theorem conversation_path_unsanitized_witness :
    get_conversation_path "/d" "x" = "/d" ++ "/" ++ ("x" ++ ".json") ∧
    (∃ conv s',
      create_conversation emptyFileState "t0" "../secret" = .ok (conv, s') ∧
      readFile s'.files "/data/../secret.json" = some conv ∧
      get_conversation s' "../secret" = some conv) :=
  ⟨conversation_path_unsanitized.1 "/d" "x" rfl (by decide) rfl,
   conversation_path_unsanitized.2.2.2.2 emptyFileState "t0" rfl rfl⟩

end LlmCouncil
